import Mathlib

/-!
Verification development for the Novikov-Thorne thin-disk unit of sim5
(src/src/sim5disk-nt.c).  The C routines are embedded over the real
numbers: the static configuration variables of the unit become the
fields of an explicit state record that is threaded through the
functions, and double arithmetic is modelled by real arithmetic.
-/

/-- Modelled from the spec: the external physical constants consumed by
the disk unit (gravitational radius for one solar mass, Eddington
accretion rate, Eddington luminosity).  The constants table is not under
src/ and the spec treats the constants as inputs, so they are parameters
of the embedding. -/
structure SimConsts where
  grav_radius : ℝ
  Mdot_Edd : ℝ
  L_Edd : ℝ

/-- The static configuration variables of sim5disk-nt.c. -/
structure DiskState where
  bh_mass : ℝ
  bh_spin : ℝ
  disk_mdot : ℝ
  disk_rms : ℝ
  disk_alpha : ℝ
  options : ℕ

/-- Initial values of the static configuration variables. -/
noncomputable def disk_nt_init : DiskState :=
  { bh_mass := 10, bh_spin := 0, disk_mdot := 0.1, disk_rms := 6,
    disk_alpha := 0.1, options := 0 }

/-- Modelled from the spec: squaring helper used by the source (a macro
of the shared math unit, which is not under src/). -/
def sqr (x : ℝ) : ℝ := x * x

/-- Modelled from the spec: cubing helper used by the source (a macro of
the shared math unit, which is not under src/). -/
def sqr3 (x : ℝ) : ℝ := x * x * x

/-- Modelled from the spec: fourth-power helper used by the source (a
macro of the shared math unit, which is not under src/). -/
def sqr4 (x : ℝ) : ℝ := x * x * x * x

/-- First trigonometric root of the cubic, as computed inline by the
source: x1 = +2 cos(acos(a)/3 - pi/3). -/
noncomputable def nt_x1 (a : ℝ) : ℝ := 2 * Real.cos (1/3 * Real.arccos a - Real.pi/3)

/-- Second trigonometric root of the cubic, as computed inline by the
source: x2 = +2 cos(acos(a)/3 + pi/3). -/
noncomputable def nt_x2 (a : ℝ) : ℝ := 2 * Real.cos (1/3 * Real.arccos a + Real.pi/3)

/-- Third trigonometric root of the cubic, as computed inline by the
source: x3 = -2 cos(acos(a)/3). -/
noncomputable def nt_x3 (a : ℝ) : ℝ := -2 * Real.cos (1/3 * Real.arccos a)

/-- disk_nt_r_min: minimal radius of the disk (inner edge).  The C
function reads the stored spin; here the spin is an explicit argument. -/
noncomputable def disk_nt_r_min (a : ℝ) : ℝ :=
  let sga : ℝ := if 0 ≤ a then 1 else -1
  let z1 := 1 + (1 - a*a) ^ ((1:ℝ)/3) * ((1 + a) ^ ((1:ℝ)/3) + (1 - a) ^ ((1:ℝ)/3))
  let z2 := Real.sqrt (3*a*a + z1*z1)
  let r0 := 3 + z2 - sga * Real.sqrt ((3 - z1) * (3 + z1 + 2*z2))
  r0 + 1e-3

/-- disk_nt_flux: local flux from one side of the disk (Page-Thorne). -/
noncomputable def disk_nt_flux (s : DiskState) (r : ℝ) : ℝ :=
  if r ≤ s.disk_rms then 0 else
    let a := s.bh_spin
    let x := Real.sqrt r
    let x0 := Real.sqrt s.disk_rms
    let x1 := nt_x1 a
    let x2 := nt_x2 a
    let x3 := nt_x3 a
    let f0 := x - x0 - 1.5*a*Real.log (x/x0)
    let f1 := 3*sqr (x1-a)/(x1*(x1-x2)*(x1-x3))*Real.log ((x-x1)/(x0-x1))
    let f2 := 3*sqr (x2-a)/(x2*(x2-x1)*(x2-x3))*Real.log ((x-x2)/(x0-x2))
    let f3 := 3*sqr (x3-a)/(x3*(x3-x1)*(x3-x2))*Real.log ((x-x3)/(x0-x3))
    let F := 1/(4*Real.pi*r) * 1.5/(x*x*(x*x*x - 3*x + 2*a)) * (f0-f1-f2-f3)
    9.1721376255e28 * F * s.disk_mdot / s.bh_mass

/-- Following the spec's words (flux of section 4.4): the normalised
Page-Thorne profile F-hat, with the trigonometric roots given in the
spec, f0 = x - x0 - 1.5 a ln(x/x0), and fi with the cyclic denominators
xi (xi - xj)(xi - xk).  This definition is the spec side of the
refinement claim C1 and is compared against disk_nt_flux. -/
noncomputable def Fhat_spec (a rms r : ℝ) : ℝ :=
  let x := Real.sqrt r
  let x0 := Real.sqrt rms
  let x1 := nt_x1 a
  let x2 := nt_x2 a
  let x3 := nt_x3 a
  let f0 := x - x0 - 1.5*a*Real.log (x/x0)
  let f1 := 3*(x1-a)^2/(x1*(x1-x2)*(x1-x3))*Real.log ((x-x1)/(x0-x1))
  let f2 := 3*(x2-a)^2/(x2*(x2-x3)*(x2-x1))*Real.log ((x-x2)/(x0-x2))
  let f3 := 3*(x3-a)^2/(x3*(x3-x1)*(x3-x2))*Real.log ((x-x3)/(x0-x3))
  1/(4*Real.pi*r) * (1.5/(x^2*(x^3 - 3*x + 2*a))) * (f0 - f1 - f2 - f3)

/-- Following the spec's words (ISCO of section 4.4): r_isco as a
function of the spin, with sgn = +1 for a >= 0 and -1 otherwise.  This
definition is the spec side of claim C2. -/
noncomputable def r_isco_spec (a : ℝ) : ℝ :=
  let sgn : ℝ := if 0 ≤ a then 1 else -1
  let Z1 := 1 + (1 - a^2) ^ ((1:ℝ)/3) * ((1 + a) ^ ((1:ℝ)/3) + (1 - a) ^ ((1:ℝ)/3))
  let Z2 := Real.sqrt (3*a^2 + Z1^2)
  3 + Z2 - sgn * Real.sqrt ((3 - Z1) * (3 + Z1 + 2*Z2))

/-- C1: for a configured state and any radius above the stored inner
edge, with the stored spin of modulus below one, the flux equals
9.1721376255e28 times mdot over M times the spec profile F-hat. -/
theorem disk_nt_flux_eq_spec (s : DiskState) (r : ℝ)
    (ha : |s.bh_spin| < 1) (hr : s.disk_rms < r) :
    disk_nt_flux s r =
      9.1721376255e28 * (s.disk_mdot / s.bh_mass) * Fhat_spec s.bh_spin s.disk_rms r := by
  simp only [disk_nt_flux, Fhat_spec, sqr]
  rw [if_neg (not_le.mpr hr)]
  ring

/-- C1 witness: the identity instantiated on the initial state at
radius 10. -/
theorem disk_nt_flux_eq_spec_witness :
    disk_nt_flux disk_nt_init 10 =
      9.1721376255e28 * (disk_nt_init.disk_mdot / disk_nt_init.bh_mass) *
        Fhat_spec disk_nt_init.bh_spin disk_nt_init.disk_rms 10 :=
  disk_nt_flux_eq_spec disk_nt_init 10
    (by norm_num [disk_nt_init]) (by norm_num [disk_nt_init])

/-- The inner edge at spin zero evaluates to 6.001. -/
lemma disk_nt_r_min_zero : disk_nt_r_min 0 = 6.001 := by
  have h9 : Real.sqrt 9 = 3 := by
    rw [show (9:ℝ) = 3 ^ 2 by norm_num, Real.sqrt_sq (by norm_num : (0:ℝ) ≤ 3)]
  simp only [disk_nt_r_min]
  norm_num [Real.one_rpow, h9, Real.sqrt_zero]

/-- C2: r_min returns r_isco + 10^-3 where r_isco is the spec's Z1, Z2
closed form, and in particular for spin zero it returns 6.001. -/
theorem disk_nt_r_min_eq_isco :
    (∀ a : ℝ, disk_nt_r_min a = r_isco_spec a + 1e-3) ∧
      disk_nt_r_min 0 = 6.001 := by
  constructor
  · intro a
    simp only [disk_nt_r_min, r_isco_spec]
    ring_nf
  · exact disk_nt_r_min_zero

/-- Modelled from the spec: maximal recursion depth of the adaptive
Simpson integrator (the integrator unit is not under src/; the spec
bounds the recursion without fixing the limit, so a concrete fuel is
chosen; no claim below depends on its value). -/
def simpson_max_depth : ℕ := 50

/-- Modelled from the spec: the basic Simpson quadrature of a scalar
function over an interval (part of the integrator unit, not under
src/). -/
noncomputable def simpson_quad (f : ℝ → ℝ) (a b : ℝ) : ℝ :=
  (b - a) / 6 * (f a + 4 * f ((a + b) / 2) + f b)

/-- Modelled from the spec: adaptive Simpson refinement (the integrator
unit is not under src/): compare the coarse quadrature with the two
half-interval quadratures, accept when the difference is below
15 eps (b - a), otherwise subdivide. -/
noncomputable def simpson_adapt (f : ℝ → ℝ) (eps : ℝ) : ℕ → ℝ → ℝ → ℝ
  | 0, a, b => simpson_quad f a b
  | n+1, a, b =>
      let m := (a + b) / 2
      let s := simpson_quad f a b
      let s2 := simpson_quad f a m + simpson_quad f m b
      if |s2 - s| < 15 * eps * (b - a) then s2
      else simpson_adapt f eps n a m + simpson_adapt f eps n m b

/-- Modelled from the spec: integrate_simpson, the one-dimensional
adaptive Simpson integration of f over an interval to tolerance eps
(the integrator unit is not under src/). -/
noncomputable def integrate_simpson (f : ℝ → ℝ) (a b eps : ℝ) : ℝ :=
  simpson_adapt f eps simpson_max_depth a b

/-- The nested integrand func_luminosity of disk_nt_lumi, translated
from the source. -/
noncomputable def func_luminosity (s : DiskState) (log_r : ℝ) : ℝ :=
  let r := Real.exp log_r
  let gtt := -1 + 2/r
  let gtf := -2*s.bh_spin/r
  let gff := sqr r + sqr s.bh_spin + 2*sqr s.bh_spin/r
  let Omega := 1/(s.bh_spin + r ^ ((3:ℝ)/2))
  let U_t := Real.sqrt (-1/(gtt + 2*Omega*gtf + sqr Omega*gff)) * (gtt + Omega*gtf)
  2*Real.pi*r*2*(-U_t)*disk_nt_flux s r*r

/-- disk_nt_lumi: total disk luminosity in Eddington units. -/
noncomputable def disk_nt_lumi (c : SimConsts) (s : DiskState) : ℝ :=
  let L := integrate_simpson (func_luminosity s) (Real.log s.disk_rms) (Real.log 1e5) 1e-5
  L * sqr (s.bh_mass * c.grav_radius) / (c.L_Edd * s.bh_mass)

/-- disk_nt_mdot: the stored mass accretion rate. -/
noncomputable def disk_nt_mdot (s : DiskState) : ℝ := s.disk_mdot

/-- Following the spec's words (luminosity of section 4.4): the
integrand 2 pi r 2 (-U_t) flux(r) r on the logarithmic grid, with -U_t
built from the equatorial Kerr metric components and
Omega = 1/(a + r^(3/2)); here U_t, the covariant time component of the
orbital four-velocity, is (g_tt + Omega g_tf) sqrt(-1/(g_tt +
2 Omega g_tf + Omega^2 g_ff)) (a negative quantity), so -U_t carries a
leading negation.  This definition is the spec side of claim C5. -/
noncomputable def lumi_integrand_spec (s : DiskState) (log_r : ℝ) : ℝ :=
  let r := Real.exp log_r
  let a := s.bh_spin
  let gtt := -1 + 2/r
  let gtf := -2*a/r
  let gff := r^2 + a^2 + 2*a^2/r
  let Omega := 1/(a + r ^ ((3:ℝ)/2))
  let negUt := -((gtt + Omega*gtf) * Real.sqrt (-1/(gtt + 2*Omega*gtf + Omega^2*gff)))
  2*Real.pi*r*2*negUt*disk_nt_flux s r*r

/-- C5: lumi returns the adaptive-Simpson integral, with tolerance
10^-5, of the spec integrand over log r from log r_ms to log(10^5),
multiplied by (M r_g)^2 and divided by L_Edd M. -/
theorem disk_nt_lumi_eq_spec (c : SimConsts) (s : DiskState) :
    disk_nt_lumi c s =
      integrate_simpson (lumi_integrand_spec s) (Real.log s.disk_rms) (Real.log 1e5) 1e-5
        * (s.bh_mass * c.grav_radius)^2 / (c.L_Edd * s.bh_mass) := by
  have hfun : func_luminosity s = lumi_integrand_spec s := by
    funext lr
    simp only [func_luminosity, lumi_integrand_spec, sqr]
    ring_nf
  simp only [disk_nt_lumi, hfun, sqr]
  ring

/-- disk_nt_ell: specific angular momentum of the fluid; the C function
clamps the radius to the stored inner edge before evaluation. -/
noncomputable def disk_nt_ell (s : DiskState) (r : ℝ) : ℝ :=
  let a := s.bh_spin
  let rc := max s.disk_rms r
  (rc*rc - 2*a*Real.sqrt rc + a*a) / (Real.sqrt rc * rc - 2*Real.sqrt rc + a)

/-- Following the spec's words (ell of section 4.4): the specific
angular momentum evaluated at max(r, r_ms), written with the powers of
the spec.  This definition is the spec side of claim C6. -/
noncomputable def ell_spec (a rms r : ℝ) : ℝ :=
  let rc := max r rms
  (rc^2 - 2*a*Real.sqrt rc + a^2) / (rc ^ ((3:ℝ)/2) - 2*Real.sqrt rc + a)

/-- A nonnegative real to the power three halves is its square root
times itself. -/
lemma rpow_three_halves {x : ℝ} (hx : 0 ≤ x) : x ^ ((3:ℝ)/2) = Real.sqrt x * x := by
  rcases eq_or_lt_of_le hx with h | h
  · rw [← h, Real.zero_rpow (by norm_num), Real.sqrt_zero, mul_zero]
  · rw [show ((3:ℝ)/2) = 1 + 1/2 by norm_num, Real.rpow_add h, Real.rpow_one,
      ← Real.sqrt_eq_rpow]
    ring

/-- C6: for a state with a nonnegative stored inner edge, ell agrees at
every radius with the spec formula evaluated at max(r, r_ms). -/
theorem disk_nt_ell_eq_spec (s : DiskState) (r : ℝ) (h : 0 ≤ s.disk_rms) :
    disk_nt_ell s r = ell_spec s.bh_spin s.disk_rms r := by
  have hc : 0 ≤ max s.disk_rms r := le_trans h (le_max_left _ _)
  simp only [disk_nt_ell, ell_spec, max_comm s.disk_rms r]
  rw [rpow_three_halves (max_comm s.disk_rms r ▸ hc)]
  ring

/-- C6 witness: the identity instantiated on the initial state at
radius 10. -/
theorem disk_nt_ell_eq_spec_witness :
    disk_nt_ell disk_nt_init 10 = ell_spec disk_nt_init.bh_spin disk_nt_init.disk_rms 10 :=
  disk_nt_ell_eq_spec disk_nt_init 10 (by norm_num [disk_nt_init])

/-- The flux scales as mdot over M against the unit-parameter state. -/
lemma disk_nt_flux_scale (s : DiskState) (r : ℝ) :
    disk_nt_flux s r =
      s.disk_mdot / s.bh_mass *
        disk_nt_flux { s with bh_mass := 1, disk_mdot := 1 } r := by
  simp only [disk_nt_flux]
  split
  · rw [mul_zero]
  · ring

/-- The luminosity integrand scales as mdot over M against the
unit-parameter state. -/
lemma func_luminosity_scale (s : DiskState) (lr : ℝ) :
    func_luminosity s lr =
      s.disk_mdot / s.bh_mass *
        func_luminosity { s with bh_mass := 1, disk_mdot := 1 } lr := by
  simp only [func_luminosity]
  rw [disk_nt_flux_scale s (Real.exp lr)]
  ring

/-- C7: for fixed spin, inner edge and viscosity, the flux is linear in
mdot and inversely proportional to M: flux with parameters (M, mdot)
is mdot over M times flux with (1, 1); consequently the luminosity
integrand on the logarithmic grid scales the same way. -/
theorem disk_nt_flux_scaling_law :
    (∀ (s : DiskState) (r : ℝ),
        disk_nt_flux s r =
          s.disk_mdot / s.bh_mass *
            disk_nt_flux { s with bh_mass := 1, disk_mdot := 1 } r) ∧
      ∀ (s : DiskState) (lr : ℝ),
        func_luminosity s lr =
          s.disk_mdot / s.bh_mass *
            func_luminosity { s with bh_mass := 1, disk_mdot := 1 } lr :=
  ⟨disk_nt_flux_scale, func_luminosity_scale⟩

/-- The relativistic correction factor xL of disk_nt_sigma, translated
from the source (lifted to a named definition so that its vanishing at
the inner edge can be stated). -/
noncomputable def sigma_xL (a rms r : ℝ) : ℝ :=
  let x := Real.sqrt r
  let x0 := Real.sqrt rms
  let x1 := nt_x1 a
  let x2 := nt_x2 a
  let x3 := nt_x3 a
  let f0 := x - x0 - 1.5*a*Real.log (x/x0)
  let f1 := 3*(x1-a)*(x1-a)/(x1*(x1-x2)*(x1-x3))*Real.log ((x-x1)/(x0-x1))
  let f2 := 3*(x2-a)*(x2-a)/(x2*(x2-x1)*(x2-x3))*Real.log ((x-x2)/(x0-x2))
  let f3 := 3*(x3-a)*(x3-a)/(x3*(x3-x2)*(x3-x1))*Real.log ((x-x3)/(x0-x3))
  (1 + a/(x*x*x)) / Real.sqrt (1 - 3/(x*x) + 2*a/(x*x*x)) / x * (f0 - f1 - f2 - f3)

/-- disk_nt_sigma: midplane column density with the two-zone formula. -/
noncomputable def disk_nt_sigma (c : SimConsts) (s : DiskState) (r : ℝ) : ℝ :=
  if r < s.disk_rms then 0 else
    let a := s.bh_spin
    let x := Real.sqrt r
    let xA := 1 + sqr a/sqr r + 2*sqr a/sqr3 r
    let xB := 1 + a/(x*x*x)
    let xC := 1 - 3/(x*x) + 2*a/(x*x*x)
    let xD := 1 - 2/r + sqr a/sqr r
    let xE := 1 + 4*sqr a/sqr r - 4*sqr a/sqr3 r + 3*sqr4 a/sqr4 r
    let xL := sigma_xL a s.disk_rms r
    let xMdot := s.disk_mdot*s.bh_mass*c.Mdot_Edd/1e17
    let r_im := 40*(s.disk_alpha ^ ((2:ℝ)/21)/(s.bh_mass/3) ^ ((2:ℝ)/3)*xMdot ^ ((16:ℝ)/20)) *
      xA ^ ((20:ℝ)/21) * xB ^ (-((36:ℝ)/21)) * xD ^ (-((8:ℝ)/21)) * xE ^ (-((10:ℝ)/21)) *
      xL ^ ((16:ℝ)/21)
    if r < r_im then
      20*(s.bh_mass/3)/xMdot/s.disk_alpha * Real.sqrt (r*r*r) * 1/(xA*xA) * xB ^ (3:ℝ) *
        Real.sqrt xC * xE * 1/xL
    else
      5e4 * (s.bh_mass/3) ^ (-((2:ℝ)/5))*xMdot ^ ((3:ℝ)/5)*s.disk_alpha ^ (-((4:ℝ)/5)) *
        r ^ (-((3:ℝ)/5)) * xB ^ (-((4:ℝ)/5)) * Real.sqrt xC * xD ^ (-((4:ℝ)/5)) *
        xL ^ ((3:ℝ)/5)

/-- The logarithm of a quantity divided by itself vanishes, also when
the quantity is zero (division and logarithm conventions). -/
lemma log_self_div_eq_zero (y : ℝ) : Real.log (y / y) = 0 := by
  rcases eq_or_ne y 0 with h | h
  · rw [h, div_zero, Real.log_zero]
  · rw [div_self h, Real.log_one]

/-- The factor xL vanishes at the inner edge, where every logarithm in
the Page-Thorne bracket has argument one (or zero over zero). -/
lemma sigma_xL_self (a rms : ℝ) : sigma_xL a rms rms = 0 := by
  simp only [sigma_xL, log_self_div_eq_zero]
  ring

/-- The flux vanishes at and below the stored inner edge. -/
lemma disk_nt_flux_below_rms (s : DiskState) (r : ℝ) (h : r ≤ s.disk_rms) :
    disk_nt_flux s r = 0 := by
  simp only [disk_nt_flux]
  rw [if_pos h]

/-- The column density vanishes at and below the stored inner edge:
strictly below by the guard, at the edge because xL vanishes there and
both zone formulae carry xL as a factor (as 1/xL with 1/0 = 0, and as
xL^(3/5)). -/
lemma disk_nt_sigma_below_rms (c : SimConsts) (s : DiskState) (r : ℝ)
    (h : r ≤ s.disk_rms) : disk_nt_sigma c s r = 0 := by
  rcases lt_or_eq_of_le h with hlt | heq
  · simp only [disk_nt_sigma]
    rw [if_pos hlt]
  · subst heq
    simp only [disk_nt_sigma]
    rw [if_neg (lt_irrefl _), sigma_xL_self]
    split
    · rw [div_zero]
    · rw [Real.zero_rpow (by norm_num : ((3:ℝ)/5) ≠ 0), mul_zero]

/-- The angular momentum below the inner edge is the value at the inner
edge, by the clamp to max(r_ms, r). -/
lemma disk_nt_ell_below_rms (s : DiskState) (r : ℝ) (h : r ≤ s.disk_rms) :
    disk_nt_ell s r = disk_nt_ell s s.disk_rms := by
  simp only [disk_nt_ell, max_eq_left h, max_self]

/-- C3 (amended): for r at or below the stored inner edge, flux and
sigma return zero, while ell clamps the radius and returns the value at
the inner edge instead of zero. -/
theorem disk_nt_queries_below_rms :
    (∀ (s : DiskState) (r : ℝ), r ≤ s.disk_rms → disk_nt_flux s r = 0) ∧
      (∀ (c : SimConsts) (s : DiskState) (r : ℝ), r ≤ s.disk_rms → disk_nt_sigma c s r = 0) ∧
      ∀ (s : DiskState) (r : ℝ), r ≤ s.disk_rms →
        disk_nt_ell s r = disk_nt_ell s s.disk_rms :=
  ⟨disk_nt_flux_below_rms, disk_nt_sigma_below_rms, disk_nt_ell_below_rms⟩

/-- C3 witness: the amended statement instantiated on the initial state
(inner edge 6) at radius 4, with unit constants for sigma. -/
theorem disk_nt_queries_below_rms_witness :
    disk_nt_flux disk_nt_init 4 = 0 ∧
      disk_nt_sigma ⟨1, 1, 1⟩ disk_nt_init 4 = 0 ∧
      disk_nt_ell disk_nt_init 4 = disk_nt_ell disk_nt_init disk_nt_init.disk_rms :=
  ⟨disk_nt_queries_below_rms.1 disk_nt_init 4 (by norm_num [disk_nt_init]),
    disk_nt_queries_below_rms.2.1 ⟨1, 1, 1⟩ disk_nt_init 4 (by norm_num [disk_nt_init]),
    disk_nt_queries_below_rms.2.2 disk_nt_init 4 (by norm_num [disk_nt_init])⟩

/-- C3 counterexample: on the initial state the radius 4 lies below the
inner edge 6, yet ell does not return zero there (it returns the
clamped value 36 / (4 sqrt 6)). -/
theorem disk_nt_ell_below_rms_nonzero :
    (4:ℝ) ≤ disk_nt_init.disk_rms ∧ disk_nt_ell disk_nt_init 4 ≠ 0 := by
  constructor
  · norm_num [disk_nt_init]
  · have h6 : 0 < Real.sqrt 6 := Real.sqrt_pos.mpr (by norm_num)
    simp only [disk_nt_ell, disk_nt_init]
    rw [max_eq_left (by norm_num : (4:ℝ) ≤ 6)]
    have hd : Real.sqrt 6 * 6 - 2*Real.sqrt 6 + 0 ≠ 0 := by
      have : 0 < Real.sqrt 6 * 6 - 2*Real.sqrt 6 + 0 := by nlinarith
      exact ne_of_gt this
    have hn : (6:ℝ)*6 - 2*0*Real.sqrt 6 + 0*0 ≠ 0 := by norm_num
    exact div_ne_zero hn hd

/-- Modelled from the spec: iteration limit of the bisection root
finder (the root-finder unit is not under src/; the spec bounds the
iterations without fixing the limit, so a concrete fuel is chosen; no
claim below depends on its value). -/
def rtbis_maxiter : ℕ := 100

/-- Modelled from the spec: the halving loop of the bisection root
finder rtbis (the root-finder unit is not under src/).  The residual
mutates the disk state, so the state is threaded through every
evaluation; the loop keeps the endpoint on the negative side, halves
the step, and stops when the step is below the tolerance or the
midpoint residual vanishes. -/
noncomputable def rtbis_loop (f : ℝ → DiskState → ℝ × DiskState) (tol : ℝ) :
    ℕ → ℝ → ℝ → DiskState → Option ℝ × DiskState
  | 0, _, _, s => (none, s)
  | n+1, rtb, dx, s =>
      let dx2 := dx / 2
      let xmid := rtb + dx2
      let p := f xmid s
      let rtb2 := if p.1 ≤ 0 then xmid else rtb
      if |dx2| < tol ∨ p.1 = 0 then (some rtb2, p.2)
      else rtbis_loop f tol n rtb2 dx2 p.2

/-- Modelled from the spec: the bisection root finder rtbis over a
bracket (the root-finder unit is not under src/).  It requires opposite
residual signs at the endpoints, evaluating the residual at the lower
and then at the upper endpoint, and reports failure when the sign
condition is not met at entry or the iteration limit is exceeded. -/
noncomputable def rtbis (x1 x2 tol : ℝ) (f : ℝ → DiskState → ℝ × DiskState)
    (s : DiskState) : Option ℝ × DiskState :=
  let p1 := f x1 s
  let p2 := f x2 p1.2
  if 0 ≤ p1.1 * p2.1 then (none, p2.2)
  else
    if p1.1 < 0 then rtbis_loop f tol rtbis_maxiter x1 (x2 - x1) p2.2
    else rtbis_loop f tol rtbis_maxiter x2 (x1 - x2) p2.2

/-- The nested residual fce of disk_nt_find_mdot_for_luminosity,
translated from the source: it stores the trial accretion rate in the
state and returns L0 minus the recomputed luminosity. -/
noncomputable def disk_nt_fce (c : SimConsts) (L0 xmdot : ℝ) (st : DiskState) :
    ℝ × DiskState :=
  (L0 - disk_nt_lumi c { st with disk_mdot := xmdot }, { st with disk_mdot := xmdot })

/-- disk_nt_find_mdot_for_luminosity: bisection inverse of the
luminosity; returns the root and the mutated state, or zero on
failure. -/
noncomputable def disk_nt_find_mdot_for_luminosity (c : SimConsts) (s : DiskState)
    (L0 : ℝ) : ℝ × DiskState :=
  match rtbis 0 100 1e-6 (disk_nt_fce c L0) s with
  | (some root, s2) => (root, s2)
  | (none, s2) => (0, s2)

/-- Modelled from the spec: the luminosity-mode option bit of
disk_nt_setup (declared in the header, which is not under src/; the
spec leaves the bit implementation-defined, so bit zero is chosen). -/
def DISK_NT_OPTION_LUMINOSITY : ℕ := 1

/-- The state after the plain assignments of disk_nt_setup (mass, spin,
inner edge from the spin, viscosity, options), before the accretion
rate is set. -/
noncomputable def disk_nt_setup_pre (s : DiskState) (M a alpha : ℝ) (options : ℕ) :
    DiskState :=
  { bh_mass := M, bh_spin := a, disk_mdot := s.disk_mdot,
    disk_rms := disk_nt_r_min a, disk_alpha := alpha, options := options }

/-- disk_nt_setup: configures the disk model; in luminosity mode the
accretion rate is obtained from the bisection inverse and its return
value is assigned to the stored mdot. -/
noncomputable def disk_nt_setup (c : SimConsts) (s : DiskState)
    (M a mdot_or_L alpha : ℝ) (options : ℕ) : DiskState :=
  let s1 := disk_nt_setup_pre s M a alpha options
  if options &&& DISK_NT_OPTION_LUMINOSITY ≠ 0 then
    let p := disk_nt_find_mdot_for_luminosity c s1 mdot_or_L
    { p.2 with disk_mdot := p.1 }
  else
    { s1 with disk_mdot := mdot_or_L }

/-- C8: the inverse bisects the residual L0 minus the luminosity over
the bracket from 0 to 100 with tolerance 10^-6, each residual
evaluation storing the trial rate in the state before recomputing the
luminosity, and returns the bracketed root on success and zero on
failure. -/
theorem disk_nt_find_mdot_eq_spec (c : SimConsts) (s : DiskState) (L0 : ℝ) :
    disk_nt_find_mdot_for_luminosity c s L0 =
      match rtbis 0 100 1e-6
          (fun xmdot st =>
            (L0 - disk_nt_lumi c { st with disk_mdot := xmdot },
              { st with disk_mdot := xmdot })) s with
      | (some root, s2) => (root, s2)
      | (none, s2) => ((0:ℝ), s2) := rfl

/-- The flux vanishes identically when the stored accretion rate is
zero. -/
lemma disk_nt_flux_mdot_zero (s : DiskState) (r : ℝ) (hs : s.disk_mdot = 0) :
    disk_nt_flux s r = 0 := by
  simp only [disk_nt_flux, hs]
  split
  · rfl
  · ring

/-- The luminosity integrand vanishes identically when the stored
accretion rate is zero. -/
lemma func_luminosity_mdot_zero (s : DiskState) (lr : ℝ) (hs : s.disk_mdot = 0) :
    func_luminosity s lr = 0 := by
  simp only [func_luminosity, disk_nt_flux_mdot_zero s _ hs]
  ring

/-- The adaptive Simpson integral of the zero function is zero at every
fuel. -/
lemma simpson_adapt_zero (eps : ℝ) :
    ∀ (n : ℕ) (a b : ℝ), simpson_adapt (fun _ => (0:ℝ)) eps n a b = 0 := by
  intro n
  induction n with
  | zero => intro a b; simp [simpson_adapt, simpson_quad]
  | succ n ih => intro a b; simp [simpson_adapt, simpson_quad, ih]

/-- The luminosity vanishes when the stored accretion rate is zero. -/
lemma disk_nt_lumi_mdot_zero (c : SimConsts) (s : DiskState) (hs : s.disk_mdot = 0) :
    disk_nt_lumi c s = 0 := by
  have hf : func_luminosity s = fun _ => (0:ℝ) :=
    funext fun lr => func_luminosity_mdot_zero s lr hs
  simp only [disk_nt_lumi, integrate_simpson, hf, simpson_adapt_zero]
  ring

/-- With target luminosity zero, the first residual evaluation of the
inverse vanishes, so the bracket test fails and the bisection reports
failure with the last trial rate, 100, left in the threaded state. -/
lemma rtbis_zero_L0_fail :
    rtbis 0 100 1e-6 (disk_nt_fce ⟨1, 1, 1⟩ 0)
        (disk_nt_setup_pre disk_nt_init 10 0 0.1 DISK_NT_OPTION_LUMINOSITY) =
      (none, { disk_nt_setup_pre disk_nt_init 10 0 0.1 DISK_NT_OPTION_LUMINOSITY with
        disk_mdot := 100 }) := by
  have hl : disk_nt_lumi ⟨1, 1, 1⟩
      { disk_nt_setup_pre disk_nt_init 10 0 0.1 DISK_NT_OPTION_LUMINOSITY with
        disk_mdot := 0 } = 0 :=
    disk_nt_lumi_mdot_zero _ _ rfl
  simp [rtbis, disk_nt_fce, hl]

/-- C4 (amended): when the bisection of the inverse fails, the inverse
returns zero, and setup in luminosity mode assigns that zero to the
stored accretion rate, so the public mdot after setup is zero rather
than the last bisection trial value. -/
theorem disk_nt_setup_lum_failure (c : SimConsts) (s : DiskState) (M a L0 alpha : ℝ)
    (h : (rtbis 0 100 1e-6 (disk_nt_fce c L0)
        (disk_nt_setup_pre s M a alpha DISK_NT_OPTION_LUMINOSITY)).1 = none) :
    (disk_nt_find_mdot_for_luminosity c
        (disk_nt_setup_pre s M a alpha DISK_NT_OPTION_LUMINOSITY) L0).1 = 0 ∧
      (disk_nt_setup c s M a L0 alpha DISK_NT_OPTION_LUMINOSITY).disk_mdot = 0 := by
  have h1 : (disk_nt_find_mdot_for_luminosity c
      (disk_nt_setup_pre s M a alpha DISK_NT_OPTION_LUMINOSITY) L0).1 = 0 := by
    simp only [disk_nt_find_mdot_for_luminosity]
    rcases hr : rtbis 0 100 1e-6 (disk_nt_fce c L0)
        (disk_nt_setup_pre s M a alpha DISK_NT_OPTION_LUMINOSITY) with ⟨o, st⟩
    rw [hr] at h
    simp only at h
    subst h
    rfl
  refine ⟨h1, ?_⟩
  simp only [disk_nt_setup]
  rw [if_pos (show DISK_NT_OPTION_LUMINOSITY &&& DISK_NT_OPTION_LUMINOSITY ≠ 0 by decide)]
  exact h1

/-- C4 witness: the amended statement instantiated with unit constants,
the initial state, M = 10, a = 0, alpha = 0.1 and target luminosity 0,
where the bracket test fails. -/
theorem disk_nt_setup_lum_failure_witness :
    (disk_nt_find_mdot_for_luminosity ⟨1, 1, 1⟩
        (disk_nt_setup_pre disk_nt_init 10 0 0.1 DISK_NT_OPTION_LUMINOSITY) 0).1 = 0 ∧
      (disk_nt_setup ⟨1, 1, 1⟩ disk_nt_init 10 0 0 0.1 DISK_NT_OPTION_LUMINOSITY).disk_mdot = 0 :=
  disk_nt_setup_lum_failure ⟨1, 1, 1⟩ disk_nt_init 10 0 0 0.1
    (by rw [rtbis_zero_L0_fail])

/-- C4 counterexample: with target luminosity 0 the bisection fails
with last trial rate 100, yet the public mdot after setup is 0, not
100: the return value of the inverse overwrites the last trial. -/
theorem disk_nt_setup_lum_failure_counterexample :
    (disk_nt_setup ⟨1, 1, 1⟩ disk_nt_init 10 0 0 0.1 DISK_NT_OPTION_LUMINOSITY).disk_mdot = 0 ∧
      ((rtbis 0 100 1e-6 (disk_nt_fce ⟨1, 1, 1⟩ 0)
          (disk_nt_setup_pre disk_nt_init 10 0 0.1 DISK_NT_OPTION_LUMINOSITY)).2).disk_mdot = 100 ∧
      (0:ℝ) ≠ 100 := by
  refine ⟨?_, ?_, by norm_num⟩
  · simp only [disk_nt_setup]
    rw [if_pos (show DISK_NT_OPTION_LUMINOSITY &&& DISK_NT_OPTION_LUMINOSITY ≠ 0 by decide)]
    simp only [disk_nt_find_mdot_for_luminosity, rtbis_zero_L0_fail]
  · rw [rtbis_zero_L0_fail]
/-- Rational parametrisation of the three trigonometric cubic roots: for
spin strictly between -1 and 1 there is w in (0,1) making the roots and
the spin rational functions of w. -/
structure NTRootParam (a : ℝ) where
  w : ℝ
  hw0 : 0 < w
  hw1 : w < 1
  hx1 : nt_x1 a = (3 + 6*w - w^2)/(3 + w^2)
  hx2 : nt_x2 a = (3 - 6*w - w^2)/(3 + w^2)
  hx3 : nt_x3 a = (2*w^2 - 6)/(3 + w^2)
  ha : a = (3 - w^2)*(w^4 - 42*w^2 + 9)/(3 + w^2)^3

/-- Construction of the rational parametrisation, with
w = sqrt 3 times the tangent of a sixth of arccos a. -/
noncomputable def ntRootParam (a : ℝ) (h1 : -1 < a) (h2 : a < 1) : NTRootParam a := by
  set θ := Real.arccos a / 6 with hθ
  have harc1 : 0 < Real.arccos a := Real.arccos_pos.mpr h2
  have harc2 : Real.arccos a < Real.pi := by
    rcases lt_or_eq_of_le (Real.arccos_le_pi a) with h | h
    · exact h
    · exact absurd (Real.arccos_eq_pi.mp h) (not_le.mpr h1)
  have hθ0 : 0 < θ := by positivity
  have hθ6 : θ < Real.pi/6 := by rw [hθ]; linarith
  have hπ : 0 < Real.pi := Real.pi_pos
  have hc_lo : Real.sqrt 3/2 < Real.cos θ := by
    have := Real.cos_lt_cos_of_nonneg_of_le_pi (le_of_lt hθ0) (by linarith) hθ6
    rwa [Real.cos_pi_div_six] at this
  have h3pos : 0 < Real.sqrt 3 := Real.sqrt_pos.mpr (by norm_num)
  have hc0 : 0 < Real.cos θ := by linarith
  have hs0 : 0 < Real.sin θ := Real.sin_pos_of_pos_of_lt_pi hθ0 (by linarith)
  have hs_hi : Real.sin θ < 1/2 := by
    have := Real.sin_lt_sin_of_lt_of_le_pi_div_two (by linarith) (by linarith) hθ6
    rwa [Real.sin_pi_div_six] at this
  have h3 : Real.sqrt 3 ^ 2 = 3 := Real.sq_sqrt (by norm_num)
  set c := Real.cos θ with hcdef
  set s := Real.sin θ with hsdef
  have hpy : s^2 = 1 - c^2 := by
    have := Real.sin_sq_add_cos_sq θ
    linarith
  set w := Real.sqrt 3 * s / c with hwdef
  have hw0 : 0 < w := by positivity
  have hw1 : w < 1 := by
    rw [hwdef, div_lt_one hc0]
    calc Real.sqrt 3 * s < Real.sqrt 3 * (1/2) := mul_lt_mul_of_pos_left hs_hi h3pos
      _ = Real.sqrt 3 / 2 := by ring
      _ < c := hc_lo
  have hw2 : w^2 = 3*s^2/c^2 := by
    rw [hwdef, div_pow, mul_pow, h3]
  have hC : Real.cos (2*θ) = (3 - w^2)/(3 + w^2) := by
    rw [Real.cos_two_mul, hw2, hpy]
    field_simp
    ring
  have hT : Real.sqrt 3 * Real.sin (2*θ) = 6*w/(3 + w^2) := by
    rw [Real.sin_two_mul, hw2, hpy, hwdef]
    have hinv : c * c⁻¹ = 1 := mul_inv_cancel₀ hc0.ne'
    field_simp [hc0.ne']
    linear_combination (-2*Real.sqrt 3*s*c)*hinv
  have harg : 1/3 * Real.arccos a = 2*θ := by rw [hθ]; ring
  have hd0 : (3 + w^2) ≠ 0 := by positivity
  have hx1 : nt_x1 a = (3 + 6*w - w^2)/(3 + w^2) := by
    rw [nt_x1, harg, Real.cos_sub, Real.cos_pi_div_three, Real.sin_pi_div_three]
    have : 2 * (Real.cos (2*θ) * (1/2) + Real.sin (2*θ) * (Real.sqrt 3/2))
        = Real.cos (2*θ) + Real.sqrt 3 * Real.sin (2*θ) := by ring
    rw [this, hC, hT]
    field_simp
    ring
  have hx2 : nt_x2 a = (3 - 6*w - w^2)/(3 + w^2) := by
    rw [nt_x2, harg, Real.cos_add, Real.cos_pi_div_three, Real.sin_pi_div_three]
    have : 2 * (Real.cos (2*θ) * (1/2) - Real.sin (2*θ) * (Real.sqrt 3/2))
        = Real.cos (2*θ) - Real.sqrt 3 * Real.sin (2*θ) := by ring
    rw [this, hC, hT]
    field_simp
    ring
  have hx3 : nt_x3 a = (2*w^2 - 6)/(3 + w^2) := by
    rw [nt_x3, harg, hC]
    field_simp
    ring
  have ha : a = (3 - w^2)*(w^4 - 42*w^2 + 9)/(3 + w^2)^3 := by
    have h6 : Real.arccos a = 3*(2*θ) := by rw [hθ]; ring
    have := Real.cos_arccos (le_of_lt h1) (le_of_lt h2)
    rw [h6, Real.cos_three_mul, hC] at this
    rw [← this]
    field_simp
    ring
  exact ⟨w, hw0, hw1, hx1, hx2, hx3, ha⟩

/-- The common denominator of the parametrised roots is positive. -/
lemma NTRootParam.d_pos {a : ℝ} (P : NTRootParam a) : (0:ℝ) < 3 + P.w^2 := by positivity

/-- The largest cubic root exceeds one. -/
lemma NTRootParam.x1_gt_one {a : ℝ} (P : NTRootParam a) : 1 < nt_x1 a := by
  rw [P.hx1, lt_div_iff P.d_pos]
  nlinarith [P.hw0, P.hw1]

/-- The largest cubic root is below two. -/
lemma NTRootParam.x1_lt_two {a : ℝ} (P : NTRootParam a) : nt_x1 a < 2 := by
  rw [P.hx1, div_lt_iff P.d_pos]
  nlinarith [P.hw0, P.hw1]

/-- The middle cubic root is below one. -/
lemma NTRootParam.x2_lt_one {a : ℝ} (P : NTRootParam a) : nt_x2 a < 1 := by
  rw [P.hx2, div_lt_iff P.d_pos]
  nlinarith [P.hw0, P.hw1]

/-- The middle cubic root exceeds minus one. -/
lemma NTRootParam.x2_gt_neg_one {a : ℝ} (P : NTRootParam a) : -1 < nt_x2 a := by
  rw [P.hx2, lt_div_iff P.d_pos]
  nlinarith [P.hw0, P.hw1]

/-- The smallest cubic root is below minus one. -/
lemma NTRootParam.x3_lt_neg_one {a : ℝ} (P : NTRootParam a) : nt_x3 a < -1 := by
  rw [P.hx3, div_lt_iff P.d_pos]
  nlinarith [P.hw0, P.hw1]

/-- The cubic roots are ordered: the smallest is below the middle one. -/
lemma NTRootParam.x3_lt_x2 {a : ℝ} (P : NTRootParam a) : nt_x3 a < nt_x2 a := by
  rw [P.hx2, P.hx3, div_lt_div_iff P.d_pos P.d_pos]
  nlinarith [P.hw0, P.hw1, mul_pos (mul_pos P.d_pos
    (show (0:ℝ) < 3 + P.w by nlinarith [P.hw0]))
    (show (0:ℝ) < 1 - P.w by linarith [P.hw1])]

/-- The cubic roots are ordered: the middle one is below the largest. -/
lemma NTRootParam.x2_lt_x1 {a : ℝ} (P : NTRootParam a) : nt_x2 a < nt_x1 a := by
  rw [P.hx1, P.hx2, div_lt_div_iff P.d_pos P.d_pos]
  nlinarith [P.hw0, P.hw1]

/-- Cleared form of the parametrised spin. -/
lemma NTRootParam.haN {a : ℝ} (P : NTRootParam a) :
    a*(3 + P.w^2)^3 = (3 - P.w^2)*(P.w^4 - 42*P.w^2 + 9) := by
  have hd3 : ((3 + P.w^2)^3) ≠ 0 := by positivity
  exact (eq_div_iff hd3).mp P.ha

/-- The cubic of the flux formula factors through the three roots. -/
lemma NTRootParam.cubic_fact {a : ℝ} (P : NTRootParam a) (x : ℝ) :
    x^3 - 3*x + 2*a = (x - nt_x1 a)*(x - nt_x2 a)*(x - nt_x3 a) := by
  rw [P.hx1, P.hx2, P.hx3]
  have hd : (3 + P.w^2) ≠ 0 := ne_of_gt P.d_pos
  field_simp
  linear_combination 2*P.haN

/-- Core algebra of the ISCO closed form: given the cubic relation for
Z1, the resulting radius is at least one and its square root is a root
of the marginal-stability quartic. -/
lemma isco_core (a z1 z2 W σ ρ : ℝ)
    (hz1lo : 1 ≤ z1) (hz1hi : z1 ≤ 3)
    (hcubic : (z1 - 1)^3 = (1 - a*a)*(3*z1 - 1))
    (hz2 : z2 = Real.sqrt (3*a*a + z1*z1))
    (hW : W = Real.sqrt ((3 - z1)*(3 + z1 + 2*z2)))
    (hσ : (0 ≤ a ∧ σ = 1) ∨ (a < 0 ∧ σ = -1))
    (hρ : ρ = 3 + z2 - σ*W) :
    1 ≤ ρ ∧ ρ^2 - 6*ρ + 8*a*Real.sqrt ρ - 3*(a*a) = 0 := by
  have hz20 : 0 ≤ z2 := hz2 ▸ Real.sqrt_nonneg _
  have hz2sq : z2^2 = 3*a*a + z1*z1 := by
    rw [hz2]; exact Real.sq_sqrt (by nlinarith [mul_self_nonneg a, mul_self_nonneg z1])
  have hrad : 0 ≤ (3 - z1)*(3 + z1 + 2*z2) := mul_nonneg (by linarith) (by linarith)
  have hW0 : 0 ≤ W := hW ▸ Real.sqrt_nonneg _
  have hWsq : W^2 = (3 - z1)*(3 + z1 + 2*z2) := by rw [hW]; exact Real.sq_sqrt hrad
  have hstar : (3 - z1)*(z1*z1 + 3*(a*a)) = 8*(a*a) := by linear_combination (-1)*hcubic
  have key52 : 5 ≤ 2*(z1*z1) + 3*(a*a) := by
    have hkey : (2*(z1*z1) + 3*(a*a) - 5)*(3*z1 - 1)
        = (z1 - 1)*(3*(z1*z1) + 10*z1 - 5) := by
      linear_combination 3*hcubic
    nlinarith [mul_nonneg (by linarith : (0:ℝ) ≤ z1 - 1)
      (by nlinarith : (0:ℝ) ≤ 3*(z1*z1) + 10*z1 - 5), hkey]
  have hW_ge : 3 - z1 ≤ W := by
    rw [hW]
    have h := Real.sqrt_le_sqrt (show (3-z1)^2 ≤ (3-z1)*(3+z1+2*z2) by nlinarith)
    rwa [Real.sqrt_sq (by linarith : (0:ℝ) ≤ 3 - z1)] at h
  have hW_le : W ≤ 2 + z2 := by
    rw [hW]
    have h := Real.sqrt_le_sqrt (show (3-z1)*(3+z1+2*z2) ≤ (2+z2)^2 by
      nlinarith [hz2sq, key52, mul_nonneg hz20 (by linarith : (0:ℝ) ≤ z1 - 1)])
    rwa [Real.sqrt_sq (by linarith)] at h
  rcases hσ with ⟨ha0, hσ1⟩ | ⟨ha0, hσ1⟩
  · subst hσ1
    have hρ1 : 1 ≤ ρ := by rw [hρ]; linarith
    refine ⟨hρ1, ?_⟩
    have hρ0 : (0:ℝ) ≤ ρ := by linarith
    set y := Real.sqrt ρ with hy
    have hy0 : 0 ≤ y := Real.sqrt_nonneg ρ
    have hy2 : y^2 = ρ := Real.sq_sqrt hρ0
    have hD : ρ^2 - 6*ρ - 3*(a*a) = 2*z2*(3 - z1 - W) := by
      rw [hρ]; linear_combination hz2sq + hWsq
    have e1 : (3 - z1 - W)^2 = 2*(3 - z1)*ρ := by
      rw [hρ]; linear_combination hWsq
    have hDsq : (ρ^2 - 6*ρ - 3*(a*a))^2 = 64*(a*a)*ρ := by
      calc (ρ^2 - 6*ρ - 3*(a*a))^2 = 4*z2^2*((3 - z1 - W)^2) := by rw [hD]; ring
        _ = 4*(3*a*a + z1*z1)*(2*(3 - z1)*ρ) := by rw [hz2sq, e1]
        _ = 8*ρ*((3 - z1)*(z1*z1 + 3*(a*a))) := by ring
        _ = 8*ρ*(8*(a*a)) := by rw [hstar]
        _ = 64*(a*a)*ρ := by ring
    have hDsign : ρ^2 - 6*ρ - 3*(a*a) ≤ 0 := by
      rw [hD]
      nlinarith [mul_nonneg (by linarith : (0:ℝ) ≤ 2*z2)
        (by linarith : (0:ℝ) ≤ W - (3 - z1))]
    have hK0 : 0 ≤ 8*a*y := by
      have := mul_nonneg ha0 hy0
      linarith
    have hfact : (ρ^2 - 6*ρ - 3*(a*a) - 8*a*y)*(ρ^2 - 6*ρ - 3*(a*a) + 8*a*y) = 0 := by
      have hKsq : (ρ^2 - 6*ρ - 3*(a*a))^2 = (8*a*y)^2 := by
        rw [hDsq, ← hy2]; ring
      linear_combination hKsq
    rcases mul_eq_zero.mp hfact with h | h
    · linarith
    · linarith
  · subst hσ1
    have hρ1 : 1 ≤ ρ := by rw [hρ]; linarith
    refine ⟨hρ1, ?_⟩
    have hρ0 : (0:ℝ) ≤ ρ := by linarith
    set y := Real.sqrt ρ with hy
    have hy0 : 0 ≤ y := Real.sqrt_nonneg ρ
    have hy2 : y^2 = ρ := Real.sq_sqrt hρ0
    have hD : ρ^2 - 6*ρ - 3*(a*a) = 2*z2*(3 - z1 + W) := by
      rw [hρ]; linear_combination hz2sq + hWsq
    have e1 : (3 - z1 + W)^2 = 2*(3 - z1)*ρ := by
      rw [hρ]; linear_combination hWsq
    have hDsq : (ρ^2 - 6*ρ - 3*(a*a))^2 = 64*(a*a)*ρ := by
      calc (ρ^2 - 6*ρ - 3*(a*a))^2 = 4*z2^2*((3 - z1 + W)^2) := by rw [hD]; ring
        _ = 4*(3*a*a + z1*z1)*(2*(3 - z1)*ρ) := by rw [hz2sq, e1]
        _ = 8*ρ*((3 - z1)*(z1*z1 + 3*(a*a))) := by ring
        _ = 8*ρ*(8*(a*a)) := by rw [hstar]
        _ = 64*(a*a)*ρ := by ring
    have hDsign : 0 ≤ ρ^2 - 6*ρ - 3*(a*a) := by
      rw [hD]
      nlinarith [mul_nonneg (by linarith : (0:ℝ) ≤ 2*z2)
        (by linarith : (0:ℝ) ≤ 3 - z1 + W)]
    have hK0 : 8*a*y ≤ 0 := by
      have h := mul_nonneg (by linarith : (0:ℝ) ≤ -a) hy0
      linarith
    have hfact : (ρ^2 - 6*ρ - 3*(a*a) - 8*a*y)*(ρ^2 - 6*ρ - 3*(a*a) + 8*a*y) = 0 := by
      have hKsq : (ρ^2 - 6*ρ - 3*(a*a))^2 = (8*a*y)^2 := by
        rw [hDsq, ← hy2]; ring
      linear_combination hKsq
    rcases mul_eq_zero.mp hfact with h | h
    · linarith
    · linarith

/-- The ISCO radius exactly as computed by disk_nt_r_min, before the
10^-3 shift (a lifted local of the source function). -/
noncomputable def r_isco_nt (a : ℝ) : ℝ :=
  let sga : ℝ := if 0 ≤ a then 1 else -1
  let z1 := 1 + (1 - a*a) ^ ((1:ℝ)/3) * ((1 + a) ^ ((1:ℝ)/3) + (1 - a) ^ ((1:ℝ)/3))
  let z2 := Real.sqrt (3*a*a + z1*z1)
  3 + z2 - sga * Real.sqrt ((3 - z1) * (3 + z1 + 2*z2))

/-- Cubing undoes the one-third real power on nonnegative reals. -/
lemma cube_of_rpow_third {x : ℝ} (hx : 0 ≤ x) : (x ^ ((1:ℝ)/3))^(3:ℕ) = x := by
  rw [← Real.rpow_natCast (x ^ ((1:ℝ)/3)) 3, ← Real.rpow_mul hx]
  norm_num

/-- The ISCO value of the source formula is at least one and its square
root annihilates the marginal-stability quartic. -/
lemma r_isco_nt_spec (a : ℝ) (h1 : -1 < a) (h2 : a < 1) :
    1 ≤ r_isco_nt a ∧
      (r_isco_nt a)^2 - 6*(r_isco_nt a) + 8*a*Real.sqrt (r_isco_nt a) - 3*(a*a) = 0 := by
  have hu0 : (0:ℝ) ≤ 1 + a := by linarith
  have hv0 : (0:ℝ) ≤ 1 - a := by linarith
  have hδ0 : (0:ℝ) ≤ 1 - a*a := by nlinarith
  simp only [r_isco_nt]
  set u := (1 + a) ^ ((1:ℝ)/3) with hudef
  set v := (1 - a) ^ ((1:ℝ)/3) with hvdef
  set δ := (1 - a*a) ^ ((1:ℝ)/3) with hδdef
  have hu3 : u^3 = 1 + a := cube_of_rpow_third hu0
  have hv3 : v^3 = 1 - a := cube_of_rpow_third hv0
  have hδ3 : δ^3 = 1 - a*a := cube_of_rpow_third hδ0
  have hun : 0 ≤ u := Real.rpow_nonneg hu0 _
  have hvn : 0 ≤ v := Real.rpow_nonneg hv0 _
  have hδn : 0 ≤ δ := Real.rpow_nonneg hδ0 _
  have huv : u*v = δ := by
    rw [hudef, hvdef, hδdef, ← Real.mul_rpow hu0 hv0]
    rw [show (1+a)*(1-a) = 1 - a*a by ring]
  set z1 := 1 + δ * (u + v) with hz1def
  have hz1lo : 1 ≤ z1 := by
    have := mul_nonneg hδn (add_nonneg hun hvn)
    rw [hz1def]; linarith
  have hz1hi : z1 ≤ 3 := by
    rw [hz1def, ← huv]
    nlinarith [mul_nonneg (add_nonneg hun hvn) (sq_nonneg (u - v)), hu3, hv3]
  have hcubic : (z1 - 1)^3 = (1 - a*a)*(3*z1 - 1) := by
    rw [hz1def]
    linear_combination (u+v)^3*hδ3 + (1-a*a)*hu3 + (1-a*a)*hv3 + 3*(1-a*a)*(u+v)*huv
  set z2 := Real.sqrt (3*a*a + z1*z1) with hz2def
  set W := Real.sqrt ((3 - z1) * (3 + z1 + 2*z2)) with hWdef
  rcases le_or_lt 0 a with ha | ha
  · rw [if_pos ha]
    exact isco_core a z1 z2 W 1 _ hz1lo hz1hi hcubic hz2def hWdef (Or.inl ⟨ha, rfl⟩) rfl
  · rw [if_neg (not_le.mpr ha)]
    exact isco_core a z1 z2 W (-1) _ hz1lo hz1hi hcubic hz2def hWdef (Or.inr ⟨ha, rfl⟩) rfl

/-- The square root of the ISCO value lies above the largest cubic root
and annihilates the quartic. -/
lemma sqrt_risco_facts (a : ℝ) (h1 : -1 < a) (h2 : a < 1) :
    nt_x1 a < Real.sqrt (r_isco_nt a) ∧
      (Real.sqrt (r_isco_nt a))^4 - 6*(Real.sqrt (r_isco_nt a))^2
        + 8*a*(Real.sqrt (r_isco_nt a)) - 3*(a*a) = 0 := by
  obtain ⟨hρ1, hq⟩ := r_isco_nt_spec a h1 h2
  set y := Real.sqrt (r_isco_nt a) with hy
  have hy1 : 1 ≤ y := by
    rw [hy, show (1:ℝ) = Real.sqrt 1 by rw [Real.sqrt_one]]
    exact Real.sqrt_le_sqrt hρ1
  have hy2 : y^2 = r_isco_nt a := Real.sq_sqrt (by linarith)
  have hqy : y^4 - 6*y^2 + 8*a*y - 3*(a*a) = 0 := by
    have h4 : y^4 = (r_isco_nt a)^2 := by rw [← hy2]; ring
    rw [h4, hy2]
    exact hq
  refine ⟨?_, hqy⟩
  have P := ntRootParam a h1 h2
  have hyp : y*(y^3 - 3*y + 2*a) = 3*(y - a)^2 := by linear_combination hqy
  have hy0 : (0:ℝ) < y := by linarith
  have hppos : 0 < y^3 - 3*y + 2*a := by
    have hya : 0 < y - a := by linarith
    have h0 : 0 < y*(y^3 - 3*y + 2*a) := by rw [hyp]; positivity
    rcases mul_pos_iff.mp h0 with ⟨_, hp⟩ | ⟨hn, _⟩
    · exact hp
    · linarith
  have hfac := P.cubic_fact y
  have hy2' : 0 < y - nt_x2 a := by have := P.x2_lt_one; linarith
  have hy3' : 0 < y - nt_x3 a := by have := P.x3_lt_neg_one; linarith
  have hprod : 0 < (y - nt_x1 a)*((y - nt_x2 a)*(y - nt_x3 a)) := by
    rw [show (y - nt_x1 a)*((y - nt_x2 a)*(y - nt_x3 a))
      = (y - nt_x1 a)*(y - nt_x2 a)*(y - nt_x3 a) by ring, ← hfac]
    exact hppos
  have h23 : 0 < (y - nt_x2 a)*(y - nt_x3 a) := mul_pos hy2' hy3'
  rcases mul_pos_iff.mp hprod with ⟨hp, _⟩ | ⟨_, hneg⟩
  · linarith
  · linarith

/-- Derivative of the marginal-stability quartic. -/
lemma q_deriv (a u : ℝ) :
    HasDerivAt (fun x : ℝ => x^4 - 6*x^2 + 8*a*x - 3*(a*a)) (4*u^3 - 12*u + 8*a) u := by
  have H := (((hasDerivAt_pow 4 u).sub ((hasDerivAt_pow 2 u).const_mul 6)).add
    ((hasDerivAt_id u).const_mul (8*a))).sub_const (3*(a*a))
  convert H using 1
  · push_cast
    ring

/-- The marginal-stability quartic is positive beyond the square root of
the ISCO value. -/
lemma q_pos_beyond (a : ℝ) (h1 : -1 < a) (h2 : a < 1) {x : ℝ}
    (hx : Real.sqrt (r_isco_nt a) < x) : 0 < x^4 - 6*x^2 + 8*a*x - 3*(a*a) := by
  obtain ⟨hx1y, hqy⟩ := sqrt_risco_facts a h1 h2
  have P := ntRootParam a h1 h2
  have hmono : StrictMonoOn (fun x : ℝ => x^4 - 6*x^2 + 8*a*x - 3*(a*a))
      (Set.Ici (nt_x1 a)) := by
    apply strictMonoOn_of_deriv_pos (convex_Ici _)
    · exact fun u _ => (q_deriv a u).continuousAt.continuousWithinAt
    · intro u hu
      rw [interior_Ici, Set.mem_Ioi] at hu
      rw [(q_deriv a u).deriv]
      have hfac := P.cubic_fact u
      have h1u : 0 < u - nt_x1 a := sub_pos.mpr hu
      have h2u : 0 < u - nt_x2 a := by have := P.x2_lt_x1; linarith
      have h3u : 0 < u - nt_x3 a := by
        have := P.x3_lt_x2; have := P.x2_lt_x1; linarith
      nlinarith [mul_pos (mul_pos h1u h2u) h3u, hfac]
  have hmem1 : Real.sqrt (r_isco_nt a) ∈ Set.Ici (nt_x1 a) := le_of_lt hx1y
  have hmem2 : x ∈ Set.Ici (nt_x1 a) := by
    simp only [Set.mem_Ici]
    linarith
  have := hmono hmem1 hmem2 hx
  simp only at this
  linarith [hqy]

set_option maxHeartbeats 1000000 in
/-- Partial-fraction identity: the derivative of the Page-Thorne
logarithmic bracket is the marginal-stability quartic divided by x times
the photon cubic. -/
lemma pt_deriv_eq (a : ℝ) (h1 : -1 < a) (h2 : a < 1) (x : ℝ) (hx : nt_x1 a < x) :
    1 - 1.5*a/x
      - 3*sqr (nt_x1 a - a)/(nt_x1 a*(nt_x1 a - nt_x2 a)*(nt_x1 a - nt_x3 a))/(x - nt_x1 a)
      - 3*sqr (nt_x2 a - a)/(nt_x2 a*(nt_x2 a - nt_x1 a)*(nt_x2 a - nt_x3 a))/(x - nt_x2 a)
      - 3*sqr (nt_x3 a - a)/(nt_x3 a*(nt_x3 a - nt_x1 a)*(nt_x3 a - nt_x2 a))/(x - nt_x3 a)
      = (x^4 - 6*x^2 + 8*a*x - 3*(a*a))/(x*(x^3 - 3*x + 2*a)) := by
  have P := ntRootParam a h1 h2
  have b1 := P.x1_gt_one
  have b3 := P.x2_lt_one
  have b5 := P.x3_lt_neg_one
  have b6 := P.x3_lt_x2
  have b7 := P.x2_lt_x1
  have hfac0 := P.cubic_fact 0
  have hfacx := P.cubic_fact x
  have hdpos := P.d_pos
  obtain ⟨w, hw0, hw1, hx1, hx2, hx3, ha⟩ := P
  rcases eq_or_ne a 0 with ha0 | ha0
  · subst ha0
    have hs3 : Real.sqrt 3 ^ 2 = 3 := Real.sq_sqrt (by norm_num)
    have hs3pos : 0 < Real.sqrt 3 := Real.sqrt_pos.mpr (by norm_num)
    have z1 : nt_x1 0 = Real.sqrt 3 := by
      rw [nt_x1, Real.arccos_zero]
      rw [show 1/3 * (Real.pi/2) - Real.pi/3 = -(Real.pi/6) by ring]
      rw [Real.cos_neg, Real.cos_pi_div_six]
      ring
    have z2 : nt_x2 0 = 0 := by
      rw [nt_x2, Real.arccos_zero]
      rw [show 1/3 * (Real.pi/2) + Real.pi/3 = Real.pi/2 by ring]
      rw [Real.cos_pi_div_two]
      ring
    have z3 : nt_x3 0 = -Real.sqrt 3 := by
      rw [nt_x3, Real.arccos_zero]
      rw [show 1/3 * (Real.pi/2) = Real.pi/6 by ring]
      rw [Real.cos_pi_div_six]
      ring
    rw [z1] at hx
    rw [z1, z2, z3] at hfacx
    rw [z1, z2, z3, hfacx]
    have hxpos : 0 < x := lt_trans hs3pos hx
    have hx3a : x - Real.sqrt 3 ≠ 0 := ne_of_gt (by linarith)
    have hx3b : x - -Real.sqrt 3 ≠ 0 := ne_of_gt (by linarith)
    have hxne : x ≠ 0 := ne_of_gt hxpos
    have hs3ne : Real.sqrt 3 ≠ 0 := ne_of_gt hs3pos
    have h30 : Real.sqrt 3 - 0 ≠ 0 := by rw [sub_zero]; exact hs3ne
    have h33 : Real.sqrt 3 - -Real.sqrt 3 ≠ 0 := ne_of_gt (by linarith)
    have hneg3 : -Real.sqrt 3 ≠ 0 := neg_ne_zero.mpr hs3ne
    have h33b : -Real.sqrt 3 - Real.sqrt 3 ≠ 0 := ne_of_lt (by linarith)
    have h30b : -Real.sqrt 3 - 0 ≠ 0 := by rw [sub_zero]; exact hneg3
    have hx0 : x - 0 ≠ 0 := by rw [sub_zero]; exact hxne
    simp only [sqr]
    field_simp
    linear_combination (18*Real.sqrt 3*x^5 + (12*Real.sqrt 3^4 - 18*Real.sqrt 3^2)*x^4
      - 18*Real.sqrt 3^3*x^3 + (-12*Real.sqrt 3^6 + 18*Real.sqrt 3^4)*x^2) * hs3
  · -- a ≠ 0 main case
    have hx2ne : nt_x2 a ≠ 0 := by
      intro h
      rw [h] at hfac0
      simp at hfac0
      exact ha0 (by linarith)
    have hxpos : (0:ℝ) < x := by linarith
    have hxx1 : (0:ℝ) < x - nt_x1 a := by linarith
    have hxx2 : (0:ℝ) < x - nt_x2 a := by linarith
    have hxx3 : (0:ℝ) < x - nt_x3 a := by linarith
    have hd : (3:ℝ) + w^2 ≠ 0 := ne_of_gt hdpos
    rw [hx1] at hxx1
    rw [hx2] at hxx2
    rw [hx3] at hxx3
    have hxx1w : x*(3 + w^2) - (3 + 6*w - w^2) ≠ 0 := by
      have h' := mul_pos hxx1 hdpos
      rw [sub_mul, div_mul_cancel₀ _ hd] at h'
      exact ne_of_gt h'
    have hxx2w : x*(3 + w^2) - (3 - 6*w - w^2) ≠ 0 := by
      have h' := mul_pos hxx2 hdpos
      rw [sub_mul, div_mul_cancel₀ _ hd] at h'
      exact ne_of_gt h'
    have hxx3w : x*(3 + w^2) - (2*w^2 - 6) ≠ 0 := by
      have h' := mul_pos hxx3 hdpos
      rw [sub_mul, div_mul_cancel₀ _ hd] at h'
      exact ne_of_gt h'
    have hAne : (3 + 6*w - w^2) ≠ 0 := by nlinarith
    have hBne : (3 - 6*w - w^2) ≠ 0 := by
      rw [hx2] at hx2ne
      intro h
      apply hx2ne
      rw [h]
      exact zero_div _
    have hCne : (2*w^2 - 6) ≠ 0 := by nlinarith
    have hwne : w ≠ 0 := ne_of_gt hw0
    have hxne : x ≠ 0 := ne_of_gt hxpos
    have hd12a : (6*w + 6*w) ≠ 0 := by positivity
    have hd12b : (3 - 6*w - (3 + 6*w)) ≠ 0 := by
      intro h; apply hwne; linarith
    have hd13 : (3 + 6*w - w^2 - (2*w^2 - 6)) ≠ 0 := by nlinarith
    have hd23 : (3 - 6*w - w^2 - (2*w^2 - 6)) ≠ 0 := by nlinarith
    have hd31 : (2*w^2 - 6 - (3 + 6*w - w^2)) ≠ 0 := by nlinarith
    have hd32 : (2*w^2 - 6 - (3 - 6*w - w^2)) ≠ 0 := by nlinarith
    rw [hfacx, hx1, hx2, hx3, ha]
    simp only [sqr]
    field_simp
    ring

/-- Antiderivative of the Page-Thorne bracket integrand (the bracket is
its increment from the inner edge). -/
noncomputable def pt_G (a c1 c2 c3 X1 X2 X3 : ℝ) (u : ℝ) : ℝ :=
  u - 1.5*a*Real.log u - c1*Real.log (u - X1) - c2*Real.log (u - X2) - c3*Real.log (u - X3)

/-- Derivative of the antiderivative pt_G. -/
lemma pt_G_hasDeriv (a c1 c2 c3 X1 X2 X3 u : ℝ) (hu : 0 < u)
    (hu1 : X1 < u) (hu2 : X2 < u) (hu3 : X3 < u) :
    HasDerivAt (pt_G a c1 c2 c3 X1 X2 X3)
      (1 - 1.5*a/u - c1/(u - X1) - c2/(u - X2) - c3/(u - X3)) u := by
  have hne : u ≠ 0 := ne_of_gt hu
  have hne1 : u - X1 ≠ 0 := ne_of_gt (by linarith)
  have hne2 : u - X2 ≠ 0 := ne_of_gt (by linarith)
  have hne3 : u - X3 ≠ 0 := ne_of_gt (by linarith)
  have H := ((((hasDerivAt_id u).sub ((Real.hasDerivAt_log hne).const_mul (1.5*a))).sub
    ((((hasDerivAt_id u).sub_const X1).log hne1).const_mul c1)).sub
    ((((hasDerivAt_id u).sub_const X2).log hne2).const_mul c2)).sub
    ((((hasDerivAt_id u).sub_const X3).log hne3).const_mul c3)
  convert H using 1
  field_simp

/-- The Page-Thorne bracket is the increment of pt_G between the inner
edge and the evaluation point. -/
lemma pt_bracket_split (a c1 c2 c3 X1 X2 X3 x0 x : ℝ) (h0 : 0 < x0) (hx : x0 ≤ x)
    (hb1 : X1 < x0) (hb2 : X2 < x0) (hb3 : X3 < x0) :
    x - x0 - 1.5*a*Real.log (x/x0) - c1*Real.log ((x - X1)/(x0 - X1))
      - c2*Real.log ((x - X2)/(x0 - X2)) - c3*Real.log ((x - X3)/(x0 - X3))
      = pt_G a c1 c2 c3 X1 X2 X3 x - pt_G a c1 c2 c3 X1 X2 X3 x0 := by
  rw [pt_G, pt_G,
    Real.log_div (by linarith : x ≠ 0) (ne_of_gt h0),
    Real.log_div (by linarith : x - X1 ≠ 0) (ne_of_gt (by linarith : (0:ℝ) < x0 - X1)),
    Real.log_div (by linarith : x - X2 ≠ 0) (ne_of_gt (by linarith : (0:ℝ) < x0 - X2)),
    Real.log_div (by linarith : x - X3 ≠ 0) (ne_of_gt (by linarith : (0:ℝ) < x0 - X3))]
  ring

set_option maxHeartbeats 800000 in
/-- Positivity of the Page-Thorne bracket above the inner edge, by
monotonicity from the quartic positivity. -/
lemma pt_bracket_pos (a : ℝ) (h1 : -1 < a) (h2 : a < 1) (x0 x : ℝ)
    (hx0 : x0 = Real.sqrt (r_isco_nt a + 1e-3)) (hx : x0 < x) :
    0 < x - x0 - 1.5*a*Real.log (x/x0)
      - 3*sqr (nt_x1 a - a)/(nt_x1 a*(nt_x1 a - nt_x2 a)*(nt_x1 a - nt_x3 a))
          *Real.log ((x - nt_x1 a)/(x0 - nt_x1 a))
      - 3*sqr (nt_x2 a - a)/(nt_x2 a*(nt_x2 a - nt_x1 a)*(nt_x2 a - nt_x3 a))
          *Real.log ((x - nt_x2 a)/(x0 - nt_x2 a))
      - 3*sqr (nt_x3 a - a)/(nt_x3 a*(nt_x3 a - nt_x1 a)*(nt_x3 a - nt_x2 a))
          *Real.log ((x - nt_x3 a)/(x0 - nt_x3 a)) := by
  obtain ⟨hx1y, hqy⟩ := sqrt_risco_facts a h1 h2
  obtain ⟨hρ1, hρroot⟩ := r_isco_nt_spec a h1 h2
  have P := ntRootParam a h1 h2
  have hb1 := P.x1_gt_one
  have hb2 := P.x2_lt_x1
  have hb3 := P.x3_lt_x2
  have hfacAll := P.cubic_fact
  set y := Real.sqrt (r_isco_nt a) with hydef
  have hyx0 : y < x0 := by
    rw [hx0, hydef]
    exact Real.sqrt_lt_sqrt (by linarith) (by norm_num)
  have hx1x0 : nt_x1 a < x0 := lt_trans hx1y hyx0
  have hx10 : (0:ℝ) < nt_x1 a := lt_trans one_pos hb1
  have hx00 : (0:ℝ) < x0 := lt_trans hx10 hx1x0
  have hx2x0 : nt_x2 a < x0 := lt_trans hb2 hx1x0
  have hx3x0 : nt_x3 a < x0 := lt_trans hb3 hx2x0
  set C1 := 3*sqr (nt_x1 a - a)/(nt_x1 a*(nt_x1 a - nt_x2 a)*(nt_x1 a - nt_x3 a)) with hC1
  set C2 := 3*sqr (nt_x2 a - a)/(nt_x2 a*(nt_x2 a - nt_x1 a)*(nt_x2 a - nt_x3 a)) with hC2
  set C3 := 3*sqr (nt_x3 a - a)/(nt_x3 a*(nt_x3 a - nt_x1 a)*(nt_x3 a - nt_x2 a)) with hC3
  rw [pt_bracket_split a C1 C2 C3 (nt_x1 a) (nt_x2 a) (nt_x3 a) x0 x hx00 (le_of_lt hx)
    hx1x0 hx2x0 hx3x0, sub_pos]
  have hmono : StrictMonoOn (pt_G a C1 C2 C3 (nt_x1 a) (nt_x2 a) (nt_x3 a)) (Set.Ici x0) := by
    apply strictMonoOn_of_deriv_pos (convex_Ici _)
    · intro u hu
      have hu0 : 0 < u := lt_of_lt_of_le hx00 hu
      exact (pt_G_hasDeriv a C1 C2 C3 _ _ _ u hu0 (lt_of_lt_of_le hx1x0 hu)
        (lt_of_lt_of_le hx2x0 hu) (lt_of_lt_of_le hx3x0 hu)).continuousAt.continuousWithinAt
    · intro u hu
      rw [interior_Ici, Set.mem_Ioi] at hu
      have hu0 : 0 < u := lt_trans hx00 hu
      have hu1 : nt_x1 a < u := lt_trans hx1x0 hu
      have hu2 : nt_x2 a < u := lt_trans hx2x0 hu
      have hu3 : nt_x3 a < u := lt_trans hx3x0 hu
      rw [(pt_G_hasDeriv a C1 C2 C3 _ _ _ u hu0 hu1 hu2 hu3).deriv]
      rw [hC1, hC2, hC3, pt_deriv_eq a h1 h2 u hu1]
      apply div_pos
      · apply q_pos_beyond a h1 h2
        calc Real.sqrt (r_isco_nt a) = y := by rw [hydef]
          _ < x0 := hyx0
          _ < u := hu
      · rw [hfacAll u]
        exact mul_pos hu0 (mul_pos (mul_pos (sub_pos.mpr hu1) (sub_pos.mpr hu2))
          (sub_pos.mpr hu3))
  have hlt := hmono (Set.mem_Ici.mpr (le_refl x0)) (Set.mem_Ici.mpr (le_of_lt hx)) hx
  linarith

/-- The inner edge is the ISCO value shifted by 10^-3. -/
lemma disk_nt_r_min_eq (a : ℝ) : disk_nt_r_min a = r_isco_nt a + 1e-3 := rfl

/-- C9: for a state configured from a spin of modulus below one (the
inner edge being r_min of the stored spin), with positive mass,
viscosity in (0,1] and nonnegative accretion rate (a lower bound the
spec's data model imposes on mdot), the flux is nonnegative above the
inner edge, and it is exactly zero at and below the inner edge. -/
theorem disk_nt_flux_nonneg (s : DiskState) (r : ℝ)
    (hM : 0 < s.bh_mass) (halpha : 0 < s.disk_alpha ∧ s.disk_alpha ≤ 1)
    (hmdot : 0 ≤ s.disk_mdot) (ha : |s.bh_spin| < 1)
    (hrms : s.disk_rms = disk_nt_r_min s.bh_spin) :
    (s.disk_rms < r → 0 ≤ disk_nt_flux s r) ∧
      ∀ u, u ≤ s.disk_rms → disk_nt_flux s u = 0 := by
  obtain ⟨ha1, ha2⟩ := abs_lt.mp ha
  constructor
  · intro hr
    simp only [disk_nt_flux]
    rw [if_neg (not_le.mpr hr)]
    set a := s.bh_spin with hadef
    obtain ⟨hρ1, _⟩ := r_isco_nt_spec a ha1 ha2
    have P := ntRootParam a ha1 ha2
    have hrmin_pos : (0:ℝ) < disk_nt_r_min a := by
      rw [disk_nt_r_min_eq]; linarith
    have hrms_pos : 0 < s.disk_rms := by rw [hrms]; exact hrmin_pos
    have hr_pos : 0 < r := lt_trans hrms_pos hr
    have hx0x : Real.sqrt s.disk_rms < Real.sqrt r :=
      Real.sqrt_lt_sqrt (le_of_lt hrms_pos) hr
    have hbracket := pt_bracket_pos a ha1 ha2 (Real.sqrt s.disk_rms) (Real.sqrt r)
      (by rw [hrms, disk_nt_r_min_eq]) hx0x
    obtain ⟨hx1y, _⟩ := sqrt_risco_facts a ha1 ha2
    have hyx0 : Real.sqrt (r_isco_nt a) < Real.sqrt s.disk_rms := by
      rw [hrms, disk_nt_r_min_eq]
      exact Real.sqrt_lt_sqrt (by linarith) (by norm_num)
    have hx1x : nt_x1 a < Real.sqrt r := by
      calc nt_x1 a < Real.sqrt (r_isco_nt a) := hx1y
        _ < Real.sqrt s.disk_rms := hyx0
        _ < Real.sqrt r := hx0x
    have hx2x : nt_x2 a < Real.sqrt r := lt_trans P.x2_lt_x1 hx1x
    have hx3x : nt_x3 a < Real.sqrt r := lt_trans (lt_trans P.x3_lt_x2 P.x2_lt_x1) hx1x
    have hxpos : 0 < Real.sqrt r := Real.sqrt_pos.mpr hr_pos
    have hcubicpos : 0 < Real.sqrt r*Real.sqrt r*Real.sqrt r - 3*Real.sqrt r + 2*a := by
      have h := P.cubic_fact (Real.sqrt r)
      nlinarith [mul_pos (mul_pos (sub_pos.mpr hx1x) (sub_pos.mpr hx2x))
        (sub_pos.mpr hx3x), h]
    have h4πr : (0:ℝ) < 4*Real.pi*r := by
      nlinarith [mul_pos Real.pi_pos hr_pos]
    apply div_nonneg _ (le_of_lt hM)
    apply mul_nonneg _ hmdot
    apply mul_nonneg (by norm_num)
    apply mul_nonneg
    · apply div_nonneg
      · apply mul_nonneg _ (by norm_num)
        exact le_of_lt (div_pos one_pos h4πr)
      · exact le_of_lt (mul_pos (mul_pos hxpos hxpos) hcubicpos)
    · exact le_of_lt hbracket
  · exact fun u hu => disk_nt_flux_below_rms s u hu

/-- A state configured at spin zero (inner edge 6.001), used to
instantiate the flux nonnegativity theorem. -/
noncomputable def disk_nt_state_a0 : DiskState :=
  { bh_mass := 10, bh_spin := 0, disk_mdot := 0.1,
    disk_rms := disk_nt_r_min 0, disk_alpha := 0.1, options := 0 }

/-- C9 witness: on the spin-zero state the flux at radius 10 is
nonnegative and the flux at radius 4 (below the inner edge 6.001)
vanishes. -/
theorem disk_nt_flux_nonneg_witness :
    0 ≤ disk_nt_flux disk_nt_state_a0 10 ∧ disk_nt_flux disk_nt_state_a0 4 = 0 :=
  ⟨(disk_nt_flux_nonneg disk_nt_state_a0 10 (by norm_num [disk_nt_state_a0])
      (by norm_num [disk_nt_state_a0]) (by norm_num [disk_nt_state_a0])
      (by norm_num [disk_nt_state_a0]) rfl).1
      (by show disk_nt_r_min 0 < 10; rw [disk_nt_r_min_zero]; norm_num),
    (disk_nt_flux_nonneg disk_nt_state_a0 4 (by norm_num [disk_nt_state_a0])
      (by norm_num [disk_nt_state_a0]) (by norm_num [disk_nt_state_a0])
      (by norm_num [disk_nt_state_a0]) rfl).2 4
      (by show (4:ℝ) ≤ disk_nt_r_min 0; rw [disk_nt_r_min_zero]; norm_num)⟩
